import Mathlib

/-!
Shallow embedding of the `context` dependency-injection container
(files `context.go`, `registry.go`, `api.go`).

Go reflection data is modelled explicitly: a `GoType` is a type identity
(distinct from its fully-qualified `str` name), a `GoObj` carries the
reflection facts of the scanned object's type (its fields, the interfaces
its pointer type implements) together with the object identity `oid`.
Go maps are modelled as association lists with first-match lookup and
replace-or-append update; mutation of the scanned objects' fields is
modelled as an explicit write log (`Wiring`).
-/

set_option autoImplicit false

/-- Kind of a Go type as returned by `reflect.Type.Kind()`, restricted to
the kinds the container distinguishes. -/
inductive TypeKind where
  | ptr
  | iface
  | strukt
  | other
deriving DecidableEq

/-- A Go `reflect.Type`: identity `tid`, fully-qualified name as produced
by `String()` (two distinct types may share a name), and kind. -/
structure GoType where
  tid : Nat
  str : String
  kind : TypeKind
deriving DecidableEq

/-- A struct field as seen by reflection: name, type, whether it is an
embedded/anonymous field, its tag, and whether `reflect.Value.CanSet`
holds for it (exported field). -/
structure GoField where
  name : String
  fieldType : GoType
  anonymous : Bool
  tag : String
  settable : Bool
deriving DecidableEq

/-- A scanned object together with the reflection facts of its type:
`classPtr` is `reflect.TypeOf(obj)`, `elemType` its `Elem()`, `fields`
the fields of `elemType`, and `classImplements` the set of interface
types that `classPtr` implements.  `closable`/`closeResult` model the
close capability: `closable` is the `Closable` type assertion (modelled
from the spec: the `Closable` interface declaration itself is not under
`src/`, only its use sites are; per the spec it is the zero-argument,
error-returning close operation), and `closeResult` the error returned
by invoking it (`none` = nil error). -/
structure GoObj where
  oid : Nat
  classPtr : GoType
  elemType : GoType
  fields : List GoField
  classImplements : List GoType
  closable : Bool
  closeResult : Option String
deriving DecidableEq

/-- The `injection` record built by `investigate` (`context.go`): target
object (`oid` stands for the reflect value), owning class, field position,
name, required type, and settability of the field. -/
structure Injection where
  oid : Nat
  cls : GoType
  fieldNum : Nat
  fieldName : String
  fieldType : GoType
  settable : Bool
deriving DecidableEq

/-- `beanDef`: concrete pointer type, the interfaces it implements,
the opaque (`notImplements`) interface set, and the injectable fields. -/
structure BeanDef where
  classPtr : GoType
  classImplements : List GoType
  notImplements : List GoType
  fields : List Injection
deriving DecidableEq

/-- `bean`: scanned object paired with its definition. -/
structure Bean where
  obj : GoObj
  beanDef : BeanDef
deriving DecidableEq

/-- Structured form of the errors produced by the container. -/
inductive CtxErr where
  | nullInstance (pos : Nat)
  | nonPointer (pos : Nat) (t : GoType)
  | repeatedInstance (pos : Nat) (t : GoType)
  | badFieldType (t : GoType) (pos : Nat) (cls : GoType)
  | badInjectField (t : GoType) (pos : Nat) (cls : GoType)
  | notSettable (fieldName : String) (cls : GoType)
  | noCandidates (missing : List (GoType × List Injection))
  | noImplementation (iface : GoType)
  | ambiguous (iface : GoType) (candidates : List GoType)
  | requiredBy (e : CtxErr) (injs : List Injection)
  | nullObj
  | nonPointerInject (t : GoType)
deriving DecidableEq

/-- Go map lookup, modelled on an association list (keys are unique in
every map the container builds). -/
def assocFind {α β : Type} [DecidableEq α] : List (α × β) → α → Option β
  | [], _ => none
  | (k, v) :: rest, k' => if k = k' then some v else assocFind rest k'

/-- Go map write `m[k] = v`: replace the entry if the key is present,
append otherwise. -/
def assocSet {α β : Type} [DecidableEq α] : List (α × β) → α → β → List (α × β)
  | [], k, v => [(k, v)]
  | (k0, v0) :: rest, k, v =>
    if k0 = k then (k, v) :: rest else (k0, v0) :: assocSet rest k v

/-- Go's `m[k] = append(m[k], v)` on a map of slices. -/
def appendAt {α β : Type} [DecidableEq α] : List (α × List β) → α → β → List (α × List β)
  | [], k, v => [(k, [v])]
  | (k0, vs) :: rest, k, v =>
    if k0 = k then (k0, vs ++ [v]) :: rest else (k0, vs) :: appendAt rest k v

/-- Keys of an association list. -/
def keysOf {α β : Type} (m : List (α × β)) : List α := m.map Prod.fst

/-- Slice stored under a key, the nil map access giving the empty slice. -/
def findAt {α β : Type} [DecidableEq α] (m : List (α × List β)) (k : α) : List β :=
  (assocFind m k).getD []

/-- `beanDef.implements` (`bean.go`): the opaque set is consulted first;
a type listed there is never reported as implemented, regardless of
`classPtr.Implements`. -/
def BeanDef.implements (t : BeanDef) (ifaceType : GoType) : Bool :=
  if ifaceType ∈ t.notImplements then false
  else decide (ifaceType ∈ t.classImplements)

/-- GoField loop of `investigate` (`context.go`): anonymous fields feed the
opaque set; fields tagged `inject` must be pointer- or interface-kind and
become injections. -/
def invFields (oid : Nat) (cls classPtr : GoType) :
    Nat → List GoField → Except CtxErr (List GoType × List Injection)
  | _, [] => Except.ok ([], [])
  | j, f :: rest =>
    if f.tag = "inject" ∧ f.fieldType.kind ≠ TypeKind.ptr ∧ f.fieldType.kind ≠ TypeKind.iface then
      Except.error (CtxErr.badFieldType f.fieldType j classPtr)
    else
      match invFields oid cls classPtr (j+1) rest with
      | Except.error e => Except.error e
      | Except.ok (ni, fs) =>
        Except.ok
          ((if f.anonymous then f.fieldType :: ni else ni),
           (if f.tag = "inject" then
              { oid := oid, cls := cls, fieldNum := j, fieldName := f.name,
                fieldType := f.fieldType, settable := f.settable } :: fs
            else fs))

/-- `investigate` (`context.go`): build the bean and its definition from
the object's reflection data. -/
def investigate (obj : GoObj) : Except CtxErr Bean :=
  match invFields obj.oid obj.elemType obj.classPtr 0 obj.fields with
  | Except.error e => Except.error e
  | Except.ok (ni, fs) =>
    Except.ok
      { obj := obj,
        beanDef :=
          { classPtr := obj.classPtr, classImplements := obj.classImplements,
            notImplements := ni, fields := fs } }

/-- `injection.inject` (`bean.go`): write the bean reference into the
field when it is settable, error otherwise.  The write is recorded in the
wiring log as (target object, field position, injected object). -/
def injectOne (inj : Injection) (impl : Bean) (w : List (Nat × Nat × Nat)) :
    Except CtxErr (List (Nat × Nat × Nat)) :=
  if inj.settable then Except.ok (w ++ [(inj.oid, inj.fieldNum, impl.obj.oid)])
  else Except.error (CtxErr.notSettable inj.fieldName inj.cls)

/-- The wiring log: (target object id, field position, injected object id). -/
abbrev Wiring := List (Nat × Nat × Nat)

/-- Inject a bean into each requester field in turn, stopping at the
first failure (as every `inject` call site in `Create` does). -/
def injectAll : List Injection → Bean → Wiring → Except CtxErr Wiring
  | [], _, w => Except.ok w
  | inj :: rest, impl, w =>
    match injectOne inj impl w with
    | Except.error e => Except.error e
    | Except.ok w' => injectAll rest impl w'

/-- `searchByInterface` (`context.go`): collect the beans whose
definition implements the interface; exactly one candidate is required. -/
def searchByInterface (ifaceType : GoType) (core : List (GoType × Bean)) :
    Except CtxErr Bean :=
  match core.filter (fun e => e.2.beanDef.implements ifaceType) with
  | [] => Except.error (CtxErr.noImplementation ifaceType)
  | [e] => Except.ok e.2
  | es => Except.error (CtxErr.ambiguous ifaceType (es.map Prod.fst))

/-- Requirement maps built during the scan: required type to the list of
injections requesting it (`pointers` / `interfaces` in `Create`). -/
abbrev ReqMap := List (GoType × List Injection)

/-- The frozen core: concrete pointer type to bean, in scan order. -/
abbrev CoreMap := List (GoType × Bean)

/-- Name-indexed registry map. -/
abbrev NameMap := List (String × List Bean)

/-- Type-indexed registry map. -/
abbrev TypeMap := List (GoType × Bean)

/-- Classification loop over a scanned bean's injectable fields
(`Create`, `context.go`): pointer-kind fields go to `pointers`,
interface-kind fields to `interfaces`, anything else is an error. -/
def classifyFields (i : Nat) (classPtr : GoType) :
    List Injection → ReqMap → ReqMap → Except CtxErr (ReqMap × ReqMap)
  | [], ptrs, ifs => Except.ok (ptrs, ifs)
  | inj :: rest, ptrs, ifs =>
    match inj.fieldType.kind with
    | TypeKind.ptr => classifyFields i classPtr rest (appendAt ptrs inj.fieldType inj) ifs
    | TypeKind.iface => classifyFields i classPtr rest ptrs (appendAt ifs inj.fieldType inj)
    | _ => Except.error (CtxErr.badInjectField inj.fieldType i classPtr)

/-- Scan loop of `Create` (`context.go`): reject nil entries, non-pointer
instances and repeated concrete types; investigate each object and
classify its requirements. -/
def scanLoop : Nat → List (Option GoObj) → CoreMap → ReqMap → ReqMap →
    Except CtxErr (CoreMap × ReqMap × ReqMap)
  | _, [], core, ptrs, ifs => Except.ok (core, ptrs, ifs)
  | i, none :: _, _, _, _ => Except.error (CtxErr.nullInstance i)
  | i, some obj :: rest, core, ptrs, ifs =>
    if obj.classPtr.kind ≠ TypeKind.ptr then
      Except.error (CtxErr.nonPointer i obj.classPtr)
    else if (assocFind core obj.classPtr).isSome then
      Except.error (CtxErr.repeatedInstance i obj.classPtr)
    else
      match investigate obj with
      | Except.error e => Except.error e
      | Except.ok b =>
        match classifyFields i obj.classPtr b.beanDef.fields ptrs ifs with
        | Except.error e => Except.error e
        | Except.ok (ptrs', ifs') =>
          scanLoop (i+1) rest (core ++ [(obj.classPtr, b)]) ptrs' ifs'

/-- Direct-match loop of `Create` (`context.go`): for each required
pointer type present in the core, register the bean under the type and
its name, then inject every requester; matched types are collected in
`found`. -/
def phase1 : ReqMap → CoreMap → NameMap → TypeMap → Wiring →
    Except CtxErr (NameMap × TypeMap × Wiring × List GoType)
  | [], _, bn, bt, w => Except.ok (bn, bt, w, [])
  | (requiredType, injs) :: rest, core, bn, bt, w =>
    match assocFind core requiredType with
    | some direct =>
      match injectAll injs direct w with
      | Except.error e => Except.error e
      | Except.ok w' =>
        match phase1 rest core (appendAt bn requiredType.str direct)
            (assocSet bt requiredType direct) w' with
        | Except.error e => Except.error e
        | Except.ok (bnf, btf, wf, found) => Except.ok (bnf, btf, wf, requiredType :: found)
    | none => phase1 rest core bn bt w

/-- Interface-match loop of `Create` (`context.go`): resolve each
distinct interface requirement through `searchByInterface`, wrap any
failure with the requesting injections, inject every requester and
register the unique candidate under the interface type and its name. -/
def phase2 : ReqMap → CoreMap → NameMap → TypeMap → Wiring →
    Except CtxErr (NameMap × TypeMap × Wiring)
  | [], _, bn, bt, w => Except.ok (bn, bt, w)
  | (ifaceType, injs) :: rest, core, bn, bt, w =>
    match searchByInterface ifaceType core with
    | Except.error e => Except.error (CtxErr.requiredBy e injs)
    | Except.ok service =>
      match injectAll injs service w with
      | Except.error e => Except.error e
      | Except.ok w' =>
        phase2 rest core (appendAt bn ifaceType.str service)
          (assocSet bt ifaceType service) w'

/-- The thread-safe registry (`registry.go`). -/
structure Registry where
  beansByName : NameMap
  beansByType : TypeMap
deriving DecidableEq

/-- `registry.findByType` (`registry.go`). -/
def Registry.findByType (r : Registry) (ifaceType : GoType) : Option Bean :=
  assocFind r.beansByType ifaceType

/-- `registry.findByName` (`registry.go`): objects stored under the name,
the nil map access giving the empty list. -/
def Registry.findByName (r : Registry) (iface : String) : List GoObj :=
  (findAt r.beansByName iface).map (fun b => b.obj)

/-- `registry.addBean` (`registry.go`): write the type entry and append
to the name-indexed list unconditionally. -/
def Registry.addBean (r : Registry) (ifaceType : GoType) (b : Bean) : Registry :=
  { beansByType := assocSet r.beansByType ifaceType b,
    beansByName := appendAt r.beansByName ifaceType.str b }

/-- The constructed context (`context.go`): frozen core, registry, and
the runtime introspection cache for `Inject`. -/
structure Ctx where
  core : CoreMap
  registry : Registry
  runtimeCache : List (GoType × BeanDef)
deriving DecidableEq

/-- `Create` (`context.go`), with the Go two-value return modelled
literally: every failure site returns `(none, some error)` and only the
final success site returns a context.  The wiring log is internal to
construction (it records writes into the scanned objects). -/
def create (scan : List (Option GoObj)) : Option Ctx × Option CtxErr :=
  match scanLoop 0 scan [] [] [] with
  | Except.error e => (none, some e)
  | Except.ok (core, ptrs, ifs) =>
    match phase1 ptrs core [] [] [] with
    | Except.error e => (none, some e)
    | Except.ok (bn, bt, _, found) =>
      if found.length = ptrs.length then
        match phase2 ifs core bn bt [] with
        | Except.error e => (none, some e)
        | Except.ok (bn', bt', _) =>
          (some { core := core,
                  registry := { beansByName := bn', beansByType := bt' },
                  runtimeCache := [] }, none)
      else
        (none, some (CtxErr.noCandidates
          (ptrs.filter (fun e => decide (e.1 ∉ found)))))

/-- `getBean` (`context.go`): registry hit, else direct core hit (cached
via `addBean`), else interface search against the frozen core (cached on
success only; a failed search leaves the context unchanged). -/
def getBean (t : Ctx) (ifaceType : GoType) : Option Bean × Ctx :=
  match t.registry.findByType ifaceType with
  | some b => (some b, t)
  | none =>
    match assocFind t.core ifaceType with
    | some b => (some b, { t with registry := t.registry.addBean ifaceType b })
    | none =>
      match searchByInterface ifaceType t.core with
      | Except.error _ => (none, t)
      | Except.ok b => (some b, { t with registry := t.registry.addBean ifaceType b })

/-- `Bean` (`context.go`): project the object out of `getBean`. -/
def beanOp (t : Ctx) (typ : GoType) : Option GoObj × Ctx :=
  match getBean t typ with
  | (some b, t') => (some b.obj, t')
  | (none, t') => (none, t')

/-- `Lookup` (`context.go`): name search in the registry. -/
def lookupOp (t : Ctx) (iface : String) : List GoObj :=
  t.registry.findByName iface

/-- `context.cache` (`context.go`): load-or-store of the bean definition
for a runtime-injected type. -/
def cacheOp (t : Ctx) (obj : GoObj) : Except CtxErr BeanDef × Ctx :=
  match assocFind t.runtimeCache obj.classPtr with
  | some bd => (Except.ok bd, t)
  | none =>
    match investigate obj with
    | Except.error e => (Except.error e, t)
    | Except.ok b =>
      (Except.ok b.beanDef,
       { t with runtimeCache := t.runtimeCache ++ [(obj.classPtr, b.beanDef)] })

/-- Field loop of `Inject` (`context.go`): resolve each field through
`getBean`; a succeeded resolution is written (write failures abort), but
a failed resolution only builds an error value that the source never
returns — the loop continues and the call ends with nil. -/
def injectLoop : List Injection → Ctx → Wiring → Option CtxErr × Ctx × Wiring
  | [], t, w => (none, t, w)
  | inj :: rest, t, w =>
    match getBean t inj.fieldType with
    | (some impl, t') =>
      match injectOne inj impl w with
      | Except.error e => (some e, t', w)
      | Except.ok w' => injectLoop rest t' w'
    | (none, t') => injectLoop rest t' w

/-- `Inject` (`context.go`): nil and non-pointer checks, cached
introspection, then the per-field resolution loop. -/
def injectOp (t : Ctx) (w : Wiring) (obj : Option GoObj) : Option CtxErr × Ctx × Wiring :=
  match obj with
  | none => (some CtxErr.nullObj, t, w)
  | some o =>
    if o.classPtr.kind ≠ TypeKind.ptr then (some (CtxErr.nonPointerInject o.classPtr), t, w)
    else
      match cacheOp t o with
      | (Except.error e, t') => (some e, t', w)
      | (Except.ok bd, t') => injectLoop bd.fields t' w

/-- Result of `Close` (`context.go`): nil, the single error itself, or
the combined error listing all of them. -/
inductive CloseResult where
  | ok
  | single (e : String)
  | multiple (es : List String)
deriving DecidableEq

/-- Loop of `Close` (`context.go`) over an iteration sequence of the
core map, producing the invocation trace (object ids of the beans whose
close capability was invoked) and the collected failures.  The sequence
is a parameter because Go map iteration order is unspecified. -/
def closeLoop (order : List (GoType × Bean)) : List Nat × List String :=
  order.foldl
    (fun acc e =>
      if e.2.obj.closable then
        match e.2.obj.closeResult with
        | some msg => (acc.1 ++ [e.2.obj.oid], acc.2 ++ [msg])
        | none => (acc.1 ++ [e.2.obj.oid], acc.2)
      else acc)
    ([], [])

/-- Invocation trace of `Close` under a given iteration order. -/
def closeTrace (order : List (GoType × Bean)) : List Nat :=
  (closeLoop order).1

/-- Failures collected by `Close` under a given iteration order. -/
def closeErrs (order : List (GoType × Bean)) : List String :=
  (closeLoop order).2

/-- `Close` (`context.go`): switch on the number of collected failures. -/
def closeOp (order : List (GoType × Bean)) : CloseResult :=
  match closeErrs order with
  | [] => CloseResult.ok
  | [e] => CloseResult.single e
  | es => CloseResult.multiple es

/-! ### Association-list lemmas -/

theorem assocFind_assocSet_self {α β : Type} [DecidableEq α]
    (m : List (α × β)) (k : α) (v : β) :
    assocFind (assocSet m k v) k = some v := by
  induction m with
  | nil => simp [assocSet, assocFind]
  | cons e rest ih =>
    obtain ⟨k0, v0⟩ := e
    by_cases h : k0 = k
    · simp [assocSet, h, assocFind]
    · simp [assocSet, h, assocFind, ih]

theorem assocFind_assocSet_ne {α β : Type} [DecidableEq α]
    (m : List (α × β)) (k k' : α) (v : β) (h : k ≠ k') :
    assocFind (assocSet m k v) k' = assocFind m k' := by
  induction m with
  | nil => simp [assocSet, assocFind, h]
  | cons e rest ih =>
    obtain ⟨k0, v0⟩ := e
    by_cases he : k0 = k
    · subst he
      simp [assocSet, assocFind, h, Ne.symm h]
    · simp [assocSet, he, assocFind]
      by_cases he' : k0 = k'
      · simp [he']
      · simp [he', ih]

theorem findAt_appendAt_self {α β : Type} [DecidableEq α]
    (m : List (α × List β)) (k : α) (v : β) :
    findAt (appendAt m k v) k = findAt m k ++ [v] := by
  induction m with
  | nil => simp [appendAt, findAt, assocFind]
  | cons e rest ih =>
    obtain ⟨k0, vs⟩ := e
    by_cases h : k0 = k
    · simp [appendAt, h, findAt, assocFind]
    · simpa [appendAt, h, findAt, assocFind] using ih

theorem findAt_appendAt_ne {α β : Type} [DecidableEq α]
    (m : List (α × List β)) (k k' : α) (v : β) (h : k ≠ k') :
    findAt (appendAt m k v) k' = findAt m k' := by
  induction m with
  | nil => simp [appendAt, findAt, assocFind, h]
  | cons e rest ih =>
    obtain ⟨k0, vs⟩ := e
    by_cases he : k0 = k
    · subst he
      simp [appendAt, findAt, assocFind, h, Ne.symm h]
    · by_cases he' : k0 = k'
      · subst he'
        simp [appendAt, he, findAt, assocFind, Ne.symm h]
      · simpa [appendAt, he, findAt, assocFind, he'] using ih

theorem mem_findAt_appendAt {α β : Type} [DecidableEq α]
    (m : List (α × List β)) (k k' : α) (v x : β) (hx : x ∈ findAt m k') :
    x ∈ findAt (appendAt m k v) k' := by
  by_cases h : k = k'
  · subst h
    rw [findAt_appendAt_self]
    exact List.mem_append_left _ hx
  · rwa [findAt_appendAt_ne m k k' v h]

theorem assocFind_eq_none_iff {α β : Type} [DecidableEq α]
    (m : List (α × β)) (k : α) :
    assocFind m k = none ↔ k ∉ keysOf m := by
  induction m with
  | nil => simp [assocFind, keysOf]
  | cons e rest ih =>
    obtain ⟨k0, v0⟩ := e
    by_cases h : k0 = k
    · simp [assocFind, h, keysOf]
    · rw [keysOf]
      simp only [assocFind, h, if_false, List.map_cons, List.mem_cons]
      rw [ih]
      constructor
      · intro hk hc
        rcases hc with hc | hc
        · exact h hc.symm
        · exact hk hc
      · intro hk hc
        exact hk (Or.inr hc)

theorem keysOf_appendAt_eq {α β : Type} [DecidableEq α]
    (m : List (α × List β)) (k : α) (v : β) :
    keysOf (appendAt m k v) = keysOf m ∨ keysOf (appendAt m k v) = keysOf m ++ [k] := by
  induction m with
  | nil =>
    right
    simp [appendAt, keysOf]
  | cons e rest ih =>
    obtain ⟨k0, vs⟩ := e
    by_cases h : k0 = k
    · left
      subst h
      simp [appendAt, keysOf]
    · rcases ih with h2 | h2
      · left
        simp only [appendAt, h, if_false, keysOf, List.map_cons]
        rw [show List.map Prod.fst (appendAt rest k v) = keysOf (appendAt rest k v) from rfl, h2]
        rfl
      · right
        simp only [appendAt, h, if_false, keysOf, List.map_cons]
        rw [show List.map Prod.fst (appendAt rest k v) = keysOf (appendAt rest k v) from rfl, h2]
        rfl

theorem keysOf_appendAt {α β : Type} [DecidableEq α]
    (m : List (α × List β)) (k : α) (v : β) (a : α)
    (ha : a ∈ keysOf (appendAt m k v)) : a ∈ keysOf m ∨ a = k := by
  rcases keysOf_appendAt_eq m k v with h | h
  · rw [h] at ha
    exact Or.inl ha
  · rw [h] at ha
    rcases List.mem_append.mp ha with h2 | h2
    · exact Or.inl h2
    · exact Or.inr (List.mem_singleton.mp h2)

/-! ### Injection lemmas -/

theorem injectAll_ok (injs : List Injection) (b : Bean) (w : Wiring)
    (h : ∀ inj ∈ injs, inj.settable = true) :
    injectAll injs b w =
      Except.ok (w ++ injs.map (fun inj => (inj.oid, inj.fieldNum, b.obj.oid))) := by
  induction injs generalizing w with
  | nil => simp [injectAll]
  | cons inj rest ih =>
    have hs : inj.settable = true := h inj (List.mem_cons_self _ _)
    simp only [injectAll, injectOne, hs, if_pos]
    rw [ih (w ++ [(inj.oid, inj.fieldNum, b.obj.oid)])
        (fun i hi => h i (List.mem_cons_of_mem _ hi))]
    simp

/-! ### Close-loop characterization -/

/-- All close failures of a core set, in its order. -/
def closeFailures (core : List (GoType × Bean)) : List String :=
  core.filterMap (fun e => if e.2.obj.closable then e.2.obj.closeResult else none)

theorem foldl_closeStep (order : List (GoType × Bean)) :
    ∀ tr es, order.foldl
      (fun acc e =>
        if e.2.obj.closable then
          match e.2.obj.closeResult with
          | some msg => (acc.1 ++ [e.2.obj.oid], acc.2 ++ [msg])
          | none => (acc.1 ++ [e.2.obj.oid], acc.2)
        else acc) (tr, es) =
      (tr ++ (order.filter (fun e => e.2.obj.closable)).map (fun e => e.2.obj.oid),
       es ++ closeFailures order) := by
  induction order with
  | nil => intro tr es; simp [closeFailures]
  | cons e rest ih =>
    intro tr es
    by_cases hc : e.2.obj.closable
    · cases hr : e.2.obj.closeResult with
      | none =>
        simp only [List.foldl_cons, hc, if_pos, hr]
        rw [ih (tr ++ [e.2.obj.oid]) es]
        simp [closeFailures, hc, hr]
      | some msg =>
        simp only [List.foldl_cons, hc, if_pos, hr]
        rw [ih (tr ++ [e.2.obj.oid]) (es ++ [msg])]
        simp [closeFailures, hc, hr]
    · simp only [List.foldl_cons, hc]
      rw [if_neg (by simp [hc])]
      rw [ih tr es]
      simp [closeFailures, hc]

theorem closeTrace_eq (order : List (GoType × Bean)) :
    closeTrace order = (order.filter (fun e => e.2.obj.closable)).map (fun e => e.2.obj.oid) := by
  have h := foldl_closeStep order [] []
  simp only [closeTrace, closeLoop, closeErrs] at *
  rw [h]
  simp

theorem closeErrs_eq (order : List (GoType × Bean)) :
    closeErrs order = closeFailures order := by
  have h := foldl_closeStep order [] []
  simp only [closeTrace, closeLoop, closeErrs] at *
  rw [h]
  simp

/-! ### Concrete fixtures used by witnesses and counterexamples -/

/-- Pointer type of the first fixture object. -/
def fxPtrA : GoType := ⟨2, "*app.a", TypeKind.ptr⟩

/-- Struct type behind `fxPtrA`. -/
def fxElemA : GoType := ⟨102, "app.a", TypeKind.strukt⟩

/-- A fieldless, closable object whose close succeeds. -/
def fxObjA : GoObj := ⟨0, fxPtrA, fxElemA, [], [], true, none⟩

/-- The bean `investigate` builds for `fxObjA`. -/
def fxBeanA : Bean := ⟨fxObjA, ⟨fxPtrA, [], [], []⟩⟩

/-- Pointer type of the second fixture object. -/
def fxPtrB : GoType := ⟨3, "*app.b", TypeKind.ptr⟩

/-- Struct type behind `fxPtrB`. -/
def fxElemB : GoType := ⟨103, "app.b", TypeKind.strukt⟩

/-- A fieldless, closable object whose close fails. -/
def fxObjB : GoObj := ⟨1, fxPtrB, fxElemB, [], [], true, some "close failed b"⟩

/-- The bean `investigate` builds for `fxObjB`. -/
def fxBeanB : Bean := ⟨fxObjB, ⟨fxPtrB, [], [], []⟩⟩

/-- An interface type nothing in the fixture core implements. -/
def fxSvc : GoType := ⟨10, "app.Service", TypeKind.iface⟩

/-- A runtime object with one injectable interface field of type `fxSvc`. -/
def fxObjR : GoObj :=
  ⟨7, ⟨8, "*app.req", TypeKind.ptr⟩, ⟨108, "app.req", TypeKind.strukt⟩,
   [⟨"Service", fxSvc, false, "inject", true⟩], [], false, none⟩

/-- The context `create [some fxObjA]` produces. -/
def fxCtx1 : Ctx := ⟨[(fxPtrA, fxBeanA)], ⟨[], []⟩, []⟩

/-- The context `create [some fxObjA, some fxObjB]` produces. -/
def fxCtx3 : Ctx := ⟨[(fxPtrA, fxBeanA), (fxPtrB, fxBeanB)], ⟨[], []⟩, []⟩

/-- The fixture core iterated in the order opposite to scan order. -/
def fxOrder3 : List (GoType × Bean) := [(fxPtrB, fxBeanB), (fxPtrA, fxBeanA)]

/-- C1: for every successfully constructed context and non-nil pointer object
passed to `Inject` with an unresolvable field, the claim requires a non-nil
error.  The source computes the per-field resolution error but never returns
it (`context.go`, `Inject`, the `errors.Errorf` whose result is dropped):
on the context built from `[fxObjA]`, whose core cannot satisfy the
`app.Service` interface field of `fxObjR`, the interface search fails, yet
`Inject` returns nil and wires nothing. -/
theorem c1_inject_discards_resolution_error :
    create [some fxObjA] = (some fxCtx1, none)
    ∧ searchByInterface fxSvc fxCtx1.core = Except.error (CtxErr.noImplementation fxSvc)
    ∧ (injectOp fxCtx1 [] (some fxObjR)).1 = none
    ∧ (injectOp fxCtx1 [] (some fxObjR)).2.2 = [] := by
  refine ⟨?_, ?_, ?_, ?_⟩ <;> rfl

/-- C2: the claim states `addBean` is an idempotent insert that never
duplicates the name-indexed list.  The source (`registry.go`, `addBean`)
appends to `beansByName` unconditionally: writing the same (type, bean)
pair twice leaves one entry in the type map but two in the name list. -/
theorem c2_addBean_duplicates_name_entry :
    ((Registry.addBean (Registry.addBean ⟨[], []⟩ fxPtrA fxBeanA) fxPtrA fxBeanA).beansByType
        = [(fxPtrA, fxBeanA)])
    ∧ (findAt (Registry.addBean (Registry.addBean ⟨[], []⟩ fxPtrA fxBeanA) fxPtrA fxBeanA).beansByName
        fxPtrA.str = [fxBeanA, fxBeanA])
    ∧ (findAt (Registry.addBean (Registry.addBean ⟨[], []⟩ fxPtrA fxBeanA) fxPtrA fxBeanA).beansByName
        fxPtrA.str).length ≠ 1 := by
  refine ⟨rfl, rfl, by decide⟩

/-- C3 counterexample: `Close` iterates the core map (`context.go`,
`for _, instance := range t.core`), whose iteration order Go leaves
unspecified; the claim asserts invocation in original scan order.  On the
context built from the scan `[fxObjA, fxObjB]`, the reversed iteration
order is a permutation of the core map's entries — an admissible map
iteration — and under it the close capabilities are invoked as `[1, 0]`,
not in the scan order `[0, 1]`. -/
theorem c3_close_order_counterexample :
    create [some fxObjA, some fxObjB] = (some fxCtx3, none)
    ∧ List.Perm fxOrder3 fxCtx3.core
    ∧ fxObjA.closable = true ∧ fxObjB.closable = true
    ∧ closeTrace fxCtx3.core = [0, 1]
    ∧ closeTrace fxOrder3 = [1, 0]
    ∧ closeTrace fxOrder3 ≠ [0, 1] := by
  refine ⟨rfl, by decide, rfl, rfl, rfl, rfl, by decide⟩

/-- C3 (amended): under any iteration order of the core map — Go leaves
map iteration order unspecified, so any permutation of the entries is
admissible — `Close` invokes the close capability on every closable core
bean exactly once and on nothing else, never stops at the first failure
(it collects every failure), and returns nil for zero failures, the
single error itself for exactly one, and a combined error naming all of
them for two or more.  Only the "original scan order" part of the claim
is dropped. -/
theorem c3_close_amended (core order : List (GoType × Bean))
    (hperm : List.Perm order core)
    (hnodup : (core.map (fun e => e.2.obj.oid)).Nodup) :
    (∀ e ∈ core, e.2.obj.closable = true → (closeTrace order).count e.2.obj.oid = 1)
    ∧ (∀ e ∈ core, e.2.obj.closable = false → e.2.obj.oid ∉ closeTrace order)
    ∧ List.Perm (closeErrs order) (closeFailures core)
    ∧ (closeFailures core = [] → closeOp order = CloseResult.ok)
    ∧ (∀ msg, closeFailures core = [msg] → closeOp order = CloseResult.single msg)
    ∧ (2 ≤ (closeFailures core).length →
        closeOp order = CloseResult.multiple (closeErrs order)) := by
  have htr : List.Perm (closeTrace order)
      ((core.filter (fun e => e.2.obj.closable)).map (fun e => e.2.obj.oid)) := by
    rw [closeTrace_eq]
    exact (hperm.filter _).map _
  have hLnodup : ((core.filter (fun e => e.2.obj.closable)).map
      (fun e => e.2.obj.oid)).Nodup :=
    List.Nodup.sublist (List.Sublist.map _ (List.filter_sublist core)) hnodup
  have herrs : List.Perm (closeErrs order) (closeFailures core) := by
    rw [closeErrs_eq]
    exact hperm.filterMap _
  refine ⟨?_, ?_, herrs, ?_, ?_, ?_⟩
  · intro e he hc
    rw [htr.count_eq]
    exact List.count_eq_one_of_mem hLnodup
      (List.mem_map_of_mem _ (List.mem_filter.mpr ⟨he, hc⟩))
  · intro e he hc hmem
    have hmem2 := (htr.mem_iff).mp hmem
    rcases List.mem_map.mp hmem2 with ⟨e', he', hoid⟩
    have he'core := List.mem_of_mem_filter he'
    have hc' := List.of_mem_filter he'
    have : e' = e :=
      List.inj_on_of_nodup_map hnodup he'core (by exact he) hoid
    rw [this] at hc'
    rw [hc] at hc'
    exact Bool.noConfusion hc'
  · intro hz
    have : closeErrs order = [] := List.Perm.eq_nil (hz ▸ herrs)
    simp [closeOp, this]
  · intro msg hone
    have : closeErrs order = [msg] := List.perm_singleton.mp (hone ▸ herrs)
    simp [closeOp, this]
  · intro h2
    have hlen : 2 ≤ (closeErrs order).length := by
      rw [herrs.length_eq]
      exact h2
    cases hE : closeErrs order with
    | nil => rw [hE] at hlen; simp at hlen
    | cons e1 tl =>
      cases tl with
      | nil => rw [hE] at hlen; simp at hlen
      | cons e2 tl2 => simp [closeOp, hE]

/-- Witness for the amended C3 theorem at the concrete two-bean fixture
core and its reversed iteration order. -/
theorem c3_close_amended_witness :
    (closeTrace fxOrder3).count 1 = 1
    ∧ closeOp fxOrder3 = CloseResult.single "close failed b" := by
  have h := c3_close_amended fxCtx3.core fxOrder3 (by decide) (by decide)
  refine ⟨?_, ?_⟩
  · exact h.1 (fxPtrB, fxBeanB) (by decide) rfl
  · exact h.2.2.2.2.1 "close failed b" (by decide)

/-! ### Implements characterization and investigate lemmas -/

theorem implements_true_iff (bd : BeanDef) (iface : GoType) :
    bd.implements iface = true ↔
      iface ∉ bd.notImplements ∧ iface ∈ bd.classImplements := by
  unfold BeanDef.implements
  by_cases h : iface ∈ bd.notImplements <;> simp [h]

theorem invFields_anonymous (oid : Nat) (cls classPtr : GoType) :
    ∀ (j : Nat) (fields : List GoField) (ni : List GoType) (fs : List Injection),
      invFields oid cls classPtr j fields = Except.ok (ni, fs) →
      ∀ f ∈ fields, f.anonymous = true → f.fieldType ∈ ni := by
  intro j fields
  induction fields generalizing j with
  | nil => intro ni fs h f hf; cases hf
  | cons f0 rest ih =>
    intro ni fs h f hf hanon
    rw [invFields] at h
    by_cases hbad : f0.tag = "inject" ∧ f0.fieldType.kind ≠ TypeKind.ptr
        ∧ f0.fieldType.kind ≠ TypeKind.iface
    · rw [if_pos hbad] at h
      exact Except.noConfusion h
    · rw [if_neg hbad] at h
      cases hrec : invFields oid cls classPtr (j+1) rest with
      | error e => rw [hrec] at h; exact Except.noConfusion h
      | ok p =>
        obtain ⟨ni', fs'⟩ := p
        rw [hrec] at h
        simp only [Except.ok.injEq, Prod.mk.injEq] at h
        obtain ⟨hni, _⟩ := h
        rcases List.mem_cons.mp hf with rfl | hf2
        · rw [← hni, hanon]
          simp
        · have := ih (j+1) ni' fs' hrec f hf2 hanon
          rw [← hni]
          by_cases ha0 : f0.anonymous <;> simp [ha0, this]

/-- C6: a bean exposing an interface only through an embedded/anonymous
field is never selected as that exact interface's implementation: the
opaque-set membership test is evaluated before (and regardless of) the
`Implements` test, `searchByInterface` — used both by Phase-2 matching
and by the lazy `getBean` search — only returns beans whose definition
reports the interface as implemented, and `investigate` puts every
anonymous field's type into the opaque set. -/
theorem c6_opaque_never_selected (bd : BeanDef) (iface : GoType)
    (h : iface ∈ bd.notImplements) :
    bd.implements iface = false
    ∧ (∀ (core : CoreMap) (b : Bean), searchByInterface iface core = Except.ok b →
        b.beanDef.implements iface = true)
    ∧ (∀ (obj : GoObj) (b : Bean), investigate obj = Except.ok b →
        ∀ f ∈ obj.fields, f.anonymous = true → f.fieldType ∈ b.beanDef.notImplements) := by
  refine ⟨?_, ?_, ?_⟩
  · unfold BeanDef.implements
    rw [if_pos h]
  · intro core b hs
    unfold searchByInterface at hs
    cases hfil : core.filter (fun e => e.2.beanDef.implements iface) with
    | nil => rw [hfil] at hs; exact Except.noConfusion hs
    | cons e tl =>
      cases tl with
      | nil =>
        rw [hfil] at hs
        simp only [Except.ok.injEq] at hs
        subst hs
        have hmem : e ∈ core.filter (fun e => e.2.beanDef.implements iface) :=
          hfil ▸ List.mem_cons_self e []
        have hp := (List.mem_filter.mp hmem).2
        simpa using hp
      | cons e2 tl2 =>
        rw [hfil] at hs
        exact Except.noConfusion hs
  · intro obj b hinv f hf hanon
    unfold investigate at hinv
    cases hflds : invFields obj.oid obj.elemType obj.classPtr 0 obj.fields with
    | error e => rw [hflds] at hinv; exact Except.noConfusion hinv
    | ok p =>
      obtain ⟨ni, fs⟩ := p
      rw [hflds] at hinv
      simp only [Except.ok.injEq] at hinv
      subst hinv
      exact invFields_anonymous obj.oid obj.elemType obj.classPtr 0 obj.fields ni fs hflds f hf hanon

/-- Witness for C6: a bean definition carrying `app.Service` both in its
implemented set and in its opaque set still reports "does not implement". -/
theorem c6_opaque_never_selected_witness :
    BeanDef.implements ⟨fxPtrA, [fxSvc], [fxSvc], []⟩ fxSvc = false :=
  (c6_opaque_never_selected ⟨fxPtrA, [fxSvc], [fxSvc], []⟩ fxSvc (by decide)).1

/-- C7: construction is all-or-nothing — whenever `create` reports an
error (any scan-phase check, Phase-1 match or injection, or Phase-2 match
failing), it returns no container at all, and whenever it reports no
error it returns a container; a partially-wired container is never
returned alongside an error. -/
theorem c7_all_or_nothing (scan : List (Option GoObj)) :
    ((create scan).2.isSome → (create scan).1 = none)
    ∧ ((create scan).2 = none → ∃ c, (create scan).1 = some c) := by
  cases h0 : scanLoop 0 scan [] [] [] with
  | error e => simp [create, h0]
  | ok res =>
    obtain ⟨core, ptrs, ifs⟩ := res
    cases h1 : phase1 ptrs core [] [] [] with
    | error e => simp [create, h0, h1]
    | ok r1 =>
      obtain ⟨bn, bt, w, found⟩ := r1
      by_cases hlen : found.length = ptrs.length
      · cases h2 : phase2 ifs core bn bt [] with
        | error e => simp [create, h0, h1, hlen, h2]
        | ok r2 =>
          obtain ⟨bn', bt', w'⟩ := r2
          simp [create, h0, h1, hlen, h2]
      · simp [create, h0, h1, hlen]

/-- Witness for C7 at a failing scan (a nil entry) and a succeeding scan
(the empty scan). -/
theorem c7_all_or_nothing_witness :
    (create [none]).1 = none ∧ ∃ c, (create ([] : List (Option GoObj))).1 = some c :=
  ⟨(c7_all_or_nothing [none]).1 (by decide),
   (c7_all_or_nothing []).2 rfl⟩

/-! ### getBean helper lemmas -/

theorem addBean_findByType_self (r : Registry) (t : GoType) (b : Bean) :
    (r.addBean t b).findByType t = some b := by
  unfold Registry.addBean Registry.findByType
  exact assocFind_assocSet_self _ _ _

theorem getBean_core_unchanged (c : Ctx) (t : GoType) :
    (getBean c t).2.core = c.core := by
  unfold getBean
  cases c.registry.findByType t with
  | some b => rfl
  | none =>
    cases assocFind c.core t with
    | some b => rfl
    | none =>
      cases searchByInterface t c.core with
      | error e => rfl
      | ok b => rfl

theorem getBean_found_registered (c : Ctx) (t : GoType) (b : Bean)
    (h : (getBean c t).1 = some b) :
    (getBean c t).2.registry.findByType t = some b := by
  unfold getBean at *
  cases hr : c.registry.findByType t with
  | some b0 =>
    simp only [hr] at h ⊢
    rw [← h]
  | none =>
    simp only [hr] at h ⊢
    cases hc : assocFind c.core t with
    | some b0 =>
      simp only [hc] at h ⊢
      rw [← h]
      exact addBean_findByType_self _ _ _
    | none =>
      simp only [hc] at h ⊢
      cases hs : searchByInterface t c.core with
      | error e => simp [hs] at h
      | ok b0 =>
        simp only [hs] at h ⊢
        simp only [Option.some.injEq] at h
        subst h
        exact addBean_findByType_self _ _ _

theorem getBean_none_unchanged (c : Ctx) (t : GoType)
    (h : (getBean c t).1 = none) : (getBean c t).2 = c := by
  unfold getBean at *
  cases hr : c.registry.findByType t with
  | some b0 => simp [hr] at h
  | none =>
    simp only [hr] at h ⊢
    cases hc : assocFind c.core t with
    | some b0 => simp [hc] at h
    | none =>
      simp only [hc] at h ⊢
      cases hs : searchByInterface t c.core with
      | error e => simp [hs]
      | ok b0 => simp [hs] at h

/-- C8: `Bean`'s resolution through `getBean` finds a bean exactly when
the type is already registered, or is present in the frozen core, or
resolves through the unique-candidate interface search against the core;
a success is cached (the type is registered afterwards) while a failed
search leaves the context — registry included — unchanged, so a repeated
failed lookup repeats the search; the core itself is never modified. -/
theorem c8_bean_resolution (c : Ctx) (typ : GoType) :
    ((getBean c typ).1.isSome ↔
      (c.registry.findByType typ).isSome ∨ (assocFind c.core typ).isSome
        ∨ ∃ b, searchByInterface typ c.core = Except.ok b)
    ∧ ((getBean c typ).1 = none → (getBean c typ).2 = c)
    ∧ (∀ b, (getBean c typ).1 = some b →
        (getBean c typ).2.registry.findByType typ = some b)
    ∧ (getBean c typ).2.core = c.core := by
  refine ⟨?_, getBean_none_unchanged c typ, fun b h => getBean_found_registered c typ b h,
    getBean_core_unchanged c typ⟩
  unfold getBean
  cases hr : c.registry.findByType typ with
  | some b0 => simp [hr]
  | none =>
    cases hc : assocFind c.core typ with
    | some b0 => simp [hc]
    | none =>
      cases hs : searchByInterface typ c.core with
      | error e => simp [hs]
      | ok b0 => simp [hs]

/-- Witness for C8 at the one-bean fixture context: resolving the core
pointer type registers it, and the core is untouched. -/
theorem c8_bean_resolution_witness :
    (getBean fxCtx1 fxPtrA).2.registry.findByType fxPtrA = some fxBeanA
    ∧ (getBean fxCtx1 fxPtrA).2.core = fxCtx1.core :=
  ⟨(c8_bean_resolution fxCtx1 fxPtrA).2.2.1 fxBeanA rfl,
   (c8_bean_resolution fxCtx1 fxPtrA).2.2.2⟩

/-- C4: for each distinct interface requirement, the candidate set is
exactly the core beans whose concrete type implements the interface and
do not carry it in their opaque set; Phase 2 fails with a
missing-implementation error naming the interface and all requesters on
zero candidates, fails with an ambiguous-implementation error naming the
interface and all candidate concrete types on two or more, and with
exactly one candidate wires every requester's field to that bean and
registers it under the interface type and its name. -/
theorem c4_interface_match (ifaceType : GoType) (injs : List Injection) (rest : ReqMap)
    (core : CoreMap) (bn : NameMap) (bt : TypeMap) (w : Wiring) :
    (∀ T : GoType,
       T ∈ (core.filter (fun e => e.2.beanDef.implements ifaceType)).map Prod.fst ↔
         ∃ b : Bean, (T, b) ∈ core ∧ ifaceType ∉ b.beanDef.notImplements
           ∧ ifaceType ∈ b.beanDef.classImplements)
    ∧ (core.filter (fun e => e.2.beanDef.implements ifaceType) = [] →
        phase2 ((ifaceType, injs) :: rest) core bn bt w =
          Except.error (CtxErr.requiredBy (CtxErr.noImplementation ifaceType) injs))
    ∧ (∀ (e1 e2 : GoType × Bean) (es : List (GoType × Bean)),
        core.filter (fun e => e.2.beanDef.implements ifaceType) = e1 :: e2 :: es →
        phase2 ((ifaceType, injs) :: rest) core bn bt w =
          Except.error (CtxErr.requiredBy
            (CtxErr.ambiguous ifaceType ((e1 :: e2 :: es).map Prod.fst)) injs))
    ∧ (∀ e : GoType × Bean,
        core.filter (fun e2 => e2.2.beanDef.implements ifaceType) = [e] →
        (∀ inj ∈ injs, inj.settable = true) →
        (phase2 ((ifaceType, injs) :: rest) core bn bt w =
           phase2 rest core (appendAt bn ifaceType.str e.2) (assocSet bt ifaceType e.2)
             (w ++ injs.map (fun inj => (inj.oid, inj.fieldNum, e.2.obj.oid)))
         ∧ assocFind (assocSet bt ifaceType e.2) ifaceType = some e.2
         ∧ e.2 ∈ findAt (appendAt bn ifaceType.str e.2) ifaceType.str)) := by
  refine ⟨?_, ?_, ?_, ?_⟩
  · intro T
    constructor
    · intro hT
      rcases List.mem_map.mp hT with ⟨e, he, rfl⟩
      have h1 := List.mem_of_mem_filter he
      have h2 := (List.mem_filter.mp he).2
      simp only at h2
      rcases (implements_true_iff _ _).mp h2 with ⟨hni, hci⟩
      exact ⟨e.2, by simpa using h1, hni, hci⟩
    · rintro ⟨b, hb, hni, hci⟩
      refine List.mem_map.mpr ⟨(T, b), List.mem_filter.mpr ⟨hb, ?_⟩, rfl⟩
      simpa using (implements_true_iff b.beanDef ifaceType).mpr ⟨hni, hci⟩
  · intro hfil
    simp [phase2, searchByInterface, hfil]
  · intro e1 e2 es hfil
    simp [phase2, searchByInterface, hfil]
  · intro e hfil hset
    refine ⟨?_, assocFind_assocSet_self _ _ _, ?_⟩
    · simp only [phase2, searchByInterface, hfil]
      rw [injectAll_ok injs e.2 w hset]
    · rw [findAt_appendAt_self]
      exact List.mem_append_right _ (List.mem_singleton.mpr rfl)

/-- Bean type of a second fixture object that does implement `fxSvc`. -/
def fxPtrImpl : GoType := ⟨6, "*app.impl", TypeKind.ptr⟩

/-- A fieldless object whose pointer type implements `fxSvc`. -/
def fxObjImpl : GoObj :=
  ⟨5, fxPtrImpl, ⟨106, "app.impl", TypeKind.strukt⟩, [], [fxSvc], false, none⟩

/-- The bean `investigate` builds for `fxObjImpl`. -/
def fxBeanImpl : Bean := ⟨fxObjImpl, ⟨fxPtrImpl, [fxSvc], [], []⟩⟩

/-- A one-bean core whose only bean implements `fxSvc`. -/
def fxCoreImpl : CoreMap := [(fxPtrImpl, fxBeanImpl)]

/-- An interface-kind requirement for `fxSvc` from the runtime object. -/
def fxInj : Injection := ⟨7, ⟨108, "app.req", TypeKind.strukt⟩, 0, "Service", fxSvc, true⟩

/-- Witness for C4 at a concrete one-candidate core: the unique-candidate
case wires the requester and registers the bean under the interface type
and its name. -/
theorem c4_interface_match_witness :
    phase2 [(fxSvc, [fxInj])] fxCoreImpl [] [] [] =
      phase2 [] fxCoreImpl (appendAt [] fxSvc.str fxBeanImpl)
        (assocSet [] fxSvc fxBeanImpl) ([] ++ [fxInj].map (fun inj => (inj.oid, inj.fieldNum, fxBeanImpl.obj.oid)))
    ∧ assocFind (assocSet [] fxSvc fxBeanImpl) fxSvc = some fxBeanImpl
    ∧ fxBeanImpl ∈ findAt (appendAt [] fxSvc.str fxBeanImpl) fxSvc.str := by
  have h := (c4_interface_match fxSvc [fxInj] [] fxCoreImpl [] [] []).2.2.2
    (fxPtrImpl, fxBeanImpl) (by decide) (by decide)
  exact h

/-! ### Phase-1 characterization -/

theorem phase1_all_settable (core : CoreMap) :
    ∀ (ptrs : ReqMap) (bn : NameMap) (bt : TypeMap) (w : Wiring),
      (∀ e ∈ ptrs, ∀ inj ∈ e.2, inj.settable = true) →
      ∃ bn' bt' w',
        phase1 ptrs core bn bt w =
          Except.ok (bn', bt', w',
            (ptrs.filter (fun e => (assocFind core e.1).isSome)).map Prod.fst) := by
  intro ptrs
  induction ptrs with
  | nil => intro bn bt w hset; exact ⟨bn, bt, w, rfl⟩
  | cons e rest ih =>
    intro bn bt w hset
    obtain ⟨rt, injs⟩ := e
    have hrest : ∀ e2 ∈ rest, ∀ inj ∈ e2.2, inj.settable = true :=
      fun e2 he2 inj hi => hset e2 (List.mem_cons_of_mem _ he2) inj hi
    cases hfind : assocFind core rt with
    | some direct =>
      have hinj := injectAll_ok injs direct w
        (fun inj hi => hset (rt, injs) (List.mem_cons_self _ _) inj hi)
      obtain ⟨bn', bt', w', hrec⟩ := ih (appendAt bn rt.str direct) (assocSet bt rt direct)
        (w ++ injs.map (fun inj => (inj.oid, inj.fieldNum, direct.obj.oid))) hrest
      refine ⟨bn', bt', w', ?_⟩
      simp only [phase1, hfind, hinj, hrec, List.filter_cons]
      simp [hfind]
    | none =>
      obtain ⟨bn', bt', w', hrec⟩ := ih bn bt w hrest
      refine ⟨bn', bt', w', ?_⟩
      simp only [phase1, hfind, hrec, List.filter_cons]
      simp [hfind]

/-- C5: if after Phase 1 at least one required pointer type has no exact
match in the scanned core (given a scan that passed the scan phase and
whose requester fields are settable, so Phase-1 injections succeed),
construction aborts with the single aggregated no-candidates error whose
payload is exactly the set of missing required types, each carried with
all of its requesting injections — never only the first miss. -/
theorem c5_missing_pointer_aggregated
    (scan : List (Option GoObj)) (core : CoreMap) (ptrs ifs : ReqMap)
    (hscan : scanLoop 0 scan [] [] [] = Except.ok (core, ptrs, ifs))
    (hset : ∀ e ∈ ptrs, ∀ inj ∈ e.2, inj.settable = true)
    (e0 : GoType × List Injection) (he0 : e0 ∈ ptrs)
    (hmiss : assocFind core e0.1 = none) :
    create scan = (none, some (CtxErr.noCandidates
      (ptrs.filter (fun e => (assocFind core e.1).isNone))))
    ∧ ∀ e ∈ ptrs,
        (e ∈ ptrs.filter (fun e2 => (assocFind core e2.1).isNone) ↔
          assocFind core e.1 = none) := by
  obtain ⟨bn', bt', w', hp1⟩ := phase1_all_settable core ptrs [] [] [] hset
  have hfoundmem : ∀ e ∈ ptrs,
      (e.1 ∈ (ptrs.filter (fun e2 => (assocFind core e2.1).isSome)).map Prod.fst ↔
        (assocFind core e.1).isSome = true) := by
    intro e he
    constructor
    · intro hT
      rcases List.mem_map.mp hT with ⟨e2, he2, heq⟩
      have hp := (List.mem_filter.mp he2).2
      simp only at hp
      rw [heq] at hp
      exact hp
    · intro hsome
      exact List.mem_map_of_mem _ (List.mem_filter.mpr ⟨he, by simpa using hsome⟩)
  have hlen : ¬ ((ptrs.filter (fun e2 => (assocFind core e2.1).isSome)).map Prod.fst).length
      = ptrs.length := by
    rw [List.length_map]
    intro hcon
    have hall := List.filter_length_eq_length.mp hcon e0 he0
    rw [hmiss] at hall
    exact Bool.noConfusion hall
  have hfil : ptrs.filter (fun e => decide
        (e.1 ∉ (ptrs.filter (fun e2 => (assocFind core e2.1).isSome)).map Prod.fst))
      = ptrs.filter (fun e => (assocFind core e.1).isNone) := by
    apply List.filter_congr
    intro e he
    by_cases hmem : e.1 ∈ (ptrs.filter (fun e2 => (assocFind core e2.1).isSome)).map Prod.fst
    · have hsome := (hfoundmem e he).mp hmem
      cases hv : assocFind core e.1 with
      | none =>
        rw [hv] at hsome
        exact absurd hsome (by simp)
      | some b => simp [hmem, hv]
    · have hnone : assocFind core e.1 = none := by
        cases hv : assocFind core e.1 with
        | none => rfl
        | some b =>
          exact absurd ((hfoundmem e he).mpr (by simp [hv])) hmem
      simp [hmem, hnone]
  constructor
  · simp only [create, hscan, hp1]
    rw [if_neg hlen, hfil]
  · intro e he
    rw [List.mem_filter]
    constructor
    · intro h2
      have := h2.2
      simpa [Option.isNone_iff_eq_none] using this
    · intro h2
      exact ⟨he, by simp [h2]⟩

/-- Pointer type of the missing-dependency fixture. -/
def fxPtrS : GoType := ⟨11, "*app.s", TypeKind.ptr⟩

/-- Struct type behind `fxPtrS`. -/
def fxElemS : GoType := ⟨111, "app.s", TypeKind.strukt⟩

/-- An object with one pointer-kind dependency on `fxPtrA`, which is not
in its scan set. -/
def fxObjS : GoObj :=
  ⟨9, fxPtrS, fxElemS, [⟨"A", fxPtrA, false, "inject", true⟩], [], false, none⟩

/-- The injection built for `fxObjS`'s pointer field. -/
def fxInjS : Injection := ⟨9, fxElemS, 0, "A", fxPtrA, true⟩

/-- The bean `investigate` builds for `fxObjS`. -/
def fxBeanS : Bean := ⟨fxObjS, ⟨fxPtrS, [], [], [fxInjS]⟩⟩

/-- Witness for C5 at the concrete one-object scan whose only pointer
requirement has no match: `create` returns the aggregated no-candidates
error carrying the missing type with its requester. -/
theorem c5_missing_pointer_aggregated_witness :
    create [some fxObjS] = (none, some (CtxErr.noCandidates [(fxPtrA, [fxInjS])])) := by
  have h := c5_missing_pointer_aggregated [some fxObjS] [(fxPtrS, fxBeanS)]
    [(fxPtrA, [fxInjS])] [] rfl (by decide) (fxPtrA, [fxInjS]) (by decide) rfl
  rw [h.1]
  rfl

/-! ### Registry name-key tracking -/

theorem phase1_keys (core : CoreMap) :
    ∀ (ptrs : ReqMap) (bn : NameMap) (bt : TypeMap) (w : Wiring)
      (bn' : NameMap) (bt' : TypeMap) (w' : Wiring) (found : List GoType),
      phase1 ptrs core bn bt w = Except.ok (bn', bt', w', found) →
      ∀ n, n ∈ keysOf bn' → n ∈ keysOf bn ∨ ∃ e ∈ ptrs, e.1.str = n := by
  intro ptrs
  induction ptrs with
  | nil =>
    intro bn bt w bn' bt' w' found h n hn
    simp only [phase1, Except.ok.injEq, Prod.mk.injEq] at h
    obtain ⟨h1, h2, h3, h4⟩ := h
    subst h1
    exact Or.inl hn
  | cons e rest ih =>
    intro bn bt w bn' bt' w' found h n hn
    obtain ⟨rt, injs⟩ := e
    simp only [phase1] at h
    cases hfind : assocFind core rt with
    | some direct =>
      simp only [hfind] at h
      cases hinj : injectAll injs direct w with
      | error e2 => simp [hinj] at h
      | ok w2 =>
        simp only [hinj] at h
        cases hrec : phase1 rest core (appendAt bn rt.str direct) (assocSet bt rt direct) w2 with
        | error e2 => simp [hrec] at h
        | ok q =>
          obtain ⟨bnf, btf, wf, fnd⟩ := q
          simp only [hrec, Except.ok.injEq, Prod.mk.injEq] at h
          obtain ⟨h1, h2, h3, h4⟩ := h
          subst h1
          rcases ih (appendAt bn rt.str direct) (assocSet bt rt direct) w2
              bnf btf wf fnd hrec n hn with hk | ⟨e2, he2, hstr⟩
          · rcases keysOf_appendAt bn rt.str direct n hk with hk2 | hk2
            · exact Or.inl hk2
            · exact Or.inr ⟨(rt, injs), List.mem_cons_self _ _, hk2.symm⟩
          · exact Or.inr ⟨e2, List.mem_cons_of_mem _ he2, hstr⟩
    | none =>
      simp only [hfind] at h
      rcases ih bn bt w bn' bt' w' found h n hn with hk | ⟨e2, he2, hstr⟩
      · exact Or.inl hk
      · exact Or.inr ⟨e2, List.mem_cons_of_mem _ he2, hstr⟩

theorem phase2_keys (core : CoreMap) :
    ∀ (ifs : ReqMap) (bn : NameMap) (bt : TypeMap) (w : Wiring)
      (bn' : NameMap) (bt' : TypeMap) (w' : Wiring),
      phase2 ifs core bn bt w = Except.ok (bn', bt', w') →
      ∀ n, n ∈ keysOf bn' → n ∈ keysOf bn ∨ ∃ e ∈ ifs, e.1.str = n := by
  intro ifs
  induction ifs with
  | nil =>
    intro bn bt w bn' bt' w' h n hn
    simp only [phase2, Except.ok.injEq, Prod.mk.injEq] at h
    obtain ⟨h1, h2, h3⟩ := h
    subst h1
    exact Or.inl hn
  | cons e rest ih =>
    intro bn bt w bn' bt' w' h n hn
    obtain ⟨ifaceType, injs⟩ := e
    simp only [phase2] at h
    cases hsrch : searchByInterface ifaceType core with
    | error e2 => simp [hsrch] at h
    | ok service =>
      simp only [hsrch] at h
      cases hinj : injectAll injs service w with
      | error e2 => simp [hinj] at h
      | ok w2 =>
        simp only [hinj] at h
        rcases ih (appendAt bn ifaceType.str service) (assocSet bt ifaceType service) w2
            bn' bt' w' h n hn with hk | ⟨e2, he2, hstr⟩
        · rcases keysOf_appendAt bn ifaceType.str service n hk with hk2 | hk2
          · exact Or.inl hk2
          · exact Or.inr ⟨(ifaceType, injs), List.mem_cons_self _ _, hk2.symm⟩
        · exact Or.inr ⟨e2, List.mem_cons_of_mem _ he2, hstr⟩

theorem create_names (scan : List (Option GoObj)) (core : CoreMap) (ptrs ifs : ReqMap)
    (ctx : Ctx)
    (hscan : scanLoop 0 scan [] [] [] = Except.ok (core, ptrs, ifs))
    (hcreate : create scan = (some ctx, none)) :
    ∀ n, n ∈ keysOf ctx.registry.beansByName →
      (∃ e ∈ ptrs, e.1.str = n) ∨ (∃ e ∈ ifs, e.1.str = n) := by
  intro n hn
  simp only [create, hscan] at hcreate
  cases hp1 : phase1 ptrs core [] [] [] with
  | error e => simp [hp1] at hcreate
  | ok q =>
    obtain ⟨bn1, bt1, w1, found⟩ := q
    simp only [hp1] at hcreate
    by_cases hlen : found.length = ptrs.length
    · rw [if_pos hlen] at hcreate
      cases hp2 : phase2 ifs core bn1 bt1 [] with
      | error e => simp [hp2] at hcreate
      | ok t =>
        obtain ⟨bn2, bt2, w2⟩ := t
        simp only [hp2, Prod.mk.injEq, Option.some.injEq] at hcreate
        obtain ⟨hctx, -⟩ := hcreate
        subst hctx
        rcases phase2_keys core ifs bn1 bt1 [] bn2 bt2 w2 hp2 n hn with hk | hk
        · rcases phase1_keys core ptrs [] [] [] bn1 bt1 w1 found hp1 n hk with hk2 | hk2
          · simp [keysOf] at hk2
          · exact Or.inl hk2
        · exact Or.inr hk
    · rw [if_neg hlen] at hcreate
      simp at hcreate

theorem addBean_findByName_ne (r : Registry) (t : GoType) (b : Bean) (n : String)
    (h : t.str ≠ n) : (r.addBean t b).findByName n = r.findByName n := by
  unfold Registry.addBean Registry.findByName
  rw [findAt_appendAt_ne _ _ _ _ h]

/-- C9: after a successful construction, `Lookup` under a name that no
field requirement (pointer-kind or interface-kind) carries is empty —
whether or not a core bean implements a type of that name — and lazy
resolution of any type whose name differs from `n` leaves `Lookup n`
unchanged, so the list becomes non-empty only once a resolution
registers a type with exactly that name. -/
theorem c9_lookup_only_required
    (scan : List (Option GoObj)) (core : CoreMap) (ptrs ifs : ReqMap)
    (ctx : Ctx) (n : String)
    (hscan : scanLoop 0 scan [] [] [] = Except.ok (core, ptrs, ifs))
    (hcreate : create scan = (some ctx, none))
    (hn1 : ∀ e ∈ ptrs, e.1.str ≠ n) (hn2 : ∀ e ∈ ifs, e.1.str ≠ n) :
    lookupOp ctx n = []
    ∧ (∀ (c : Ctx) (t : GoType), t.str ≠ n →
        lookupOp (getBean c t).2 n = lookupOp c n) := by
  constructor
  · have hkey : n ∉ keysOf ctx.registry.beansByName := by
      intro hk
      rcases create_names scan core ptrs ifs ctx hscan hcreate n hk with ⟨e, he, hstr⟩ | ⟨e, he, hstr⟩
      · exact hn1 e he hstr
      · exact hn2 e he hstr
    have hnone : assocFind ctx.registry.beansByName n = none :=
      (assocFind_eq_none_iff _ _).mpr hkey
    simp [lookupOp, Registry.findByName, findAt, hnone]
  · intro c t hne
    unfold getBean
    cases hr : c.registry.findByType t with
    | some b => rfl
    | none =>
      cases hc : assocFind c.core t with
      | some b =>
        show lookupOp { c with registry := c.registry.addBean t b } n = lookupOp c n
        simp only [lookupOp]
        exact addBean_findByName_ne c.registry t b n hne
      | none =>
        cases hs : searchByInterface t c.core with
        | error e => rfl
        | ok b =>
          show lookupOp { c with registry := c.registry.addBean t b } n = lookupOp c n
          simp only [lookupOp]
          exact addBean_findByName_ne c.registry t b n hne

/-- The context `create [some fxObjImpl]` produces: one core bean that
implements `app.Service`, nothing registered. -/
def fxCtxImpl : Ctx := ⟨[(fxPtrImpl, fxBeanImpl)], ⟨[], []⟩, []⟩

/-- Witness for C9: the fixture core bean implements a type named
`app.Service` yet `Lookup` of that name is empty, and lazily resolving
the (differently-named) concrete pointer type leaves it empty. -/
theorem c9_lookup_only_required_witness :
    lookupOp fxCtxImpl "app.Service" = []
    ∧ lookupOp (getBean fxCtxImpl fxPtrImpl).2 "app.Service" = lookupOp fxCtxImpl "app.Service" := by
  have h := c9_lookup_only_required [some fxObjImpl] [(fxPtrImpl, fxBeanImpl)] [] []
    fxCtxImpl "app.Service" rfl rfl (by simp) (by simp)
  exact ⟨h.1, h.2 fxCtxImpl fxPtrImpl (by decide)⟩

/-! ### Registry type/name coherence -/

/-- A name map and type map are coherent when every type-indexed entry's
bean also appears in the name-indexed list under the type's name. -/
def CoherentPair (bn : NameMap) (bt : TypeMap) : Prop :=
  ∀ t b, assocFind bt t = some b → b ∈ findAt bn t.str

/-- Coherence of a registry. -/
def Coherent (r : Registry) : Prop := CoherentPair r.beansByName r.beansByType

theorem coherentPair_step (bn : NameMap) (bt : TypeMap) (t : GoType) (b : Bean)
    (h : CoherentPair bn bt) :
    CoherentPair (appendAt bn t.str b) (assocSet bt t b) := by
  intro t' b' h'
  by_cases he : t = t'
  · subst he
    rw [assocFind_assocSet_self] at h'
    obtain rfl := Option.some.inj h'
    rw [findAt_appendAt_self]
    exact List.mem_append_right _ (List.mem_singleton.mpr rfl)
  · rw [assocFind_assocSet_ne _ _ _ _ he] at h'
    exact mem_findAt_appendAt bn t.str t'.str b b' (h t' b' h')

theorem coherentPair_empty : CoherentPair [] [] := by
  intro t b h
  simp [assocFind] at h

theorem phase1_coherent (core : CoreMap) :
    ∀ (ptrs : ReqMap) (bn : NameMap) (bt : TypeMap) (w : Wiring)
      (bn' : NameMap) (bt' : TypeMap) (w' : Wiring) (found : List GoType),
      phase1 ptrs core bn bt w = Except.ok (bn', bt', w', found) →
      CoherentPair bn bt → CoherentPair bn' bt' := by
  intro ptrs
  induction ptrs with
  | nil =>
    intro bn bt w bn' bt' w' found h hcoh
    simp only [phase1, Except.ok.injEq, Prod.mk.injEq] at h
    obtain ⟨h1, h2, h3, h4⟩ := h
    subst h1
    subst h2
    exact hcoh
  | cons e rest ih =>
    intro bn bt w bn' bt' w' found h hcoh
    obtain ⟨rt, injs⟩ := e
    simp only [phase1] at h
    cases hfind : assocFind core rt with
    | some direct =>
      simp only [hfind] at h
      cases hinj : injectAll injs direct w with
      | error e2 => simp [hinj] at h
      | ok w2 =>
        simp only [hinj] at h
        cases hrec : phase1 rest core (appendAt bn rt.str direct) (assocSet bt rt direct) w2 with
        | error e2 => simp [hrec] at h
        | ok q =>
          obtain ⟨bnf, btf, wf, fnd⟩ := q
          simp only [hrec, Except.ok.injEq, Prod.mk.injEq] at h
          obtain ⟨h1, h2, h3, h4⟩ := h
          subst h1
          subst h2
          exact ih (appendAt bn rt.str direct) (assocSet bt rt direct) w2
            bnf btf wf fnd hrec (coherentPair_step bn bt rt direct hcoh)
    | none =>
      simp only [hfind] at h
      exact ih bn bt w bn' bt' w' found h hcoh

theorem phase2_coherent (core : CoreMap) :
    ∀ (ifs : ReqMap) (bn : NameMap) (bt : TypeMap) (w : Wiring)
      (bn' : NameMap) (bt' : TypeMap) (w' : Wiring),
      phase2 ifs core bn bt w = Except.ok (bn', bt', w') →
      CoherentPair bn bt → CoherentPair bn' bt' := by
  intro ifs
  induction ifs with
  | nil =>
    intro bn bt w bn' bt' w' h hcoh
    simp only [phase2, Except.ok.injEq, Prod.mk.injEq] at h
    obtain ⟨h1, h2, h3⟩ := h
    subst h1
    subst h2
    exact hcoh
  | cons e rest ih =>
    intro bn bt w bn' bt' w' h hcoh
    obtain ⟨ifaceType, injs⟩ := e
    simp only [phase2] at h
    cases hsrch : searchByInterface ifaceType core with
    | error e2 => simp [hsrch] at h
    | ok service =>
      simp only [hsrch] at h
      cases hinj : injectAll injs service w with
      | error e2 => simp [hinj] at h
      | ok w2 =>
        simp only [hinj] at h
        exact ih (appendAt bn ifaceType.str service) (assocSet bt ifaceType service) w2
          bn' bt' w' h (coherentPair_step bn bt ifaceType service hcoh)

theorem create_coherent (scan : List (Option GoObj)) (ctx : Ctx)
    (hcreate : create scan = (some ctx, none)) : Coherent ctx.registry := by
  cases hscan : scanLoop 0 scan [] [] [] with
  | error e => simp [create, hscan] at hcreate
  | ok res =>
    obtain ⟨core, ptrs, ifs⟩ := res
    simp only [create, hscan] at hcreate
    cases hp1 : phase1 ptrs core [] [] [] with
    | error e => simp [hp1] at hcreate
    | ok q =>
      obtain ⟨bn1, bt1, w1, found⟩ := q
      simp only [hp1] at hcreate
      by_cases hlen : found.length = ptrs.length
      · rw [if_pos hlen] at hcreate
        cases hp2 : phase2 ifs core bn1 bt1 [] with
        | error e => simp [hp2] at hcreate
        | ok t =>
          obtain ⟨bn2, bt2, w2⟩ := t
          simp only [hp2, Prod.mk.injEq, Option.some.injEq] at hcreate
          obtain ⟨hctx, -⟩ := hcreate
          subst hctx
          exact phase2_coherent core ifs bn1 bt1 [] bn2 bt2 w2 hp2
            (phase1_coherent core ptrs [] [] [] bn1 bt1 w1 found hp1 coherentPair_empty)
      · rw [if_neg hlen] at hcreate
        simp at hcreate

theorem getBean_coherent (c : Ctx) (t : GoType) (h : Coherent c.registry) :
    Coherent ((getBean c t).2.registry) := by
  unfold getBean
  cases hr : c.registry.findByType t with
  | some b => exact h
  | none =>
    cases hc : assocFind c.core t with
    | some b => exact coherentPair_step _ _ t b h
    | none =>
      cases hs : searchByInterface t c.core with
      | error e => exact h
      | ok b => exact coherentPair_step _ _ t b h

theorem cacheOp_registry (c : Ctx) (o : GoObj) : (cacheOp c o).2.registry = c.registry := by
  unfold cacheOp
  cases assocFind c.runtimeCache o.classPtr with
  | some bd => rfl
  | none =>
    cases investigate o with
    | error e => rfl
    | ok b => rfl

theorem injectLoop_coherent :
    ∀ (fields : List Injection) (c : Ctx) (w : Wiring),
      Coherent c.registry → Coherent (injectLoop fields c w).2.1.registry := by
  intro fields
  induction fields with
  | nil => intro c w h; exact h
  | cons inj rest ih =>
    intro c w h
    cases hg : getBean c inj.fieldType with
    | mk ob c' =>
      have hcoh' : Coherent c'.registry := by
        have h2 := getBean_coherent c inj.fieldType h
        rw [hg] at h2
        exact h2
      cases ob with
      | some impl =>
        cases hio : injectOne inj impl w with
        | error e =>
          simp only [injectLoop, hg, hio]
          exact hcoh'
        | ok w2 =>
          simp only [injectLoop, hg, hio]
          exact ih c' w2 hcoh'
      | none =>
        simp only [injectLoop, hg]
        exact ih c' w hcoh'

theorem injectOp_coherent (c : Ctx) (w : Wiring) (obj : Option GoObj)
    (h : Coherent c.registry) : Coherent (injectOp c w obj).2.1.registry := by
  cases obj with
  | none => exact h
  | some o =>
    simp only [injectOp]
    by_cases hk : o.classPtr.kind ≠ TypeKind.ptr
    · rw [if_pos hk]
      exact h
    · rw [if_neg hk]
      cases hco : cacheOp c o with
      | mk r c' =>
        have hc' : Coherent c'.registry := by
          have h2 := cacheOp_registry c o
          rw [hco] at h2
          simp only at h2
          rw [h2]
          exact h
        cases r with
        | error e => exact hc'
        | ok bd => exact injectLoop_coherent bd.fields c' w hc'

/-- C10: registry type/name coherence — established by every successful
construction, preserved by `addBean`, by every `getBean` (hence `Bean`)
call and by every `Inject` call; consequently whenever `Bean` finds a
bean for type `T`, `Lookup` of `T`'s fully-qualified name on the
resulting context contains that same object. -/
theorem c10_registry_coherence :
    (∀ (scan : List (Option GoObj)) (ctx : Ctx),
        create scan = (some ctx, none) → Coherent ctx.registry)
    ∧ (∀ (r : Registry) (t : GoType) (b : Bean), Coherent r → Coherent (r.addBean t b))
    ∧ (∀ (c : Ctx) (t : GoType), Coherent c.registry → Coherent ((getBean c t).2.registry))
    ∧ (∀ (c : Ctx) (w : Wiring) (obj : Option GoObj),
        Coherent c.registry → Coherent ((injectOp c w obj).2.1.registry))
    ∧ (∀ (c : Ctx) (t : GoType) (b : Bean), Coherent c.registry →
        (getBean c t).1 = some b → b.obj ∈ lookupOp (getBean c t).2 t.str) := by
  refine ⟨create_coherent, ?_, getBean_coherent, injectOp_coherent, ?_⟩
  · intro r t b h
    exact coherentPair_step r.beansByName r.beansByType t b h
  · intro c t b h hfound
    have hreg := getBean_found_registered c t b hfound
    have hcoh := getBean_coherent c t h
    have hmem : b ∈ findAt (getBean c t).2.registry.beansByName t.str :=
      hcoh t b hreg
    simp only [lookupOp, Registry.findByName]
    exact List.mem_map_of_mem _ hmem

/-- Witness for C10 at the one-bean fixture context with its empty
registry: after `Bean` resolves the core pointer type, `Lookup` of its
name contains the object. -/
theorem c10_registry_coherence_witness :
    fxBeanA.obj ∈ lookupOp (getBean fxCtx1 fxPtrA).2 fxPtrA.str :=
  c10_registry_coherence.2.2.2.2 fxCtx1 fxPtrA fxBeanA
    (by intro t b h; simp [assocFind] at h) rfl
